import Mathlib

/-!
Shallow embedding of the event lifecycle / participant state machine and the
reminder scheduling subsystem of the Cappuccino Discord bot (src/bot.js).

Times are modelled as millisecond timestamps (`Int`, as JS numbers are used
only at integral millisecond values here).  User ids, event ids and message
ids are `String`s.  Redis hashes are modelled as association lists, the
BullMQ queue as a list of jobs.
-/

/-- The four selectable roles (src/bot.js line 1582: the closed set
`['tank', 'healer', 'dps', 'blue_mage']`). -/
inductive Role
  | tank
  | healer
  | dps
  | blue_mage
deriving DecidableEq, Repr

/-- The group composition types offered by the create-event command
(`standard`, `non_standard`, `light_party`; src/bot.js lines 740-742). -/
inductive GroupType
  | standard
  | non_standard
  | light_party
deriving DecidableEq, Repr

/-- A participant record as stored inside `event.participants`
(src/bot.js lines 1604, 1700: `{ id, role, class }`).  The `class` field is
named `cls` here because `class` is a Lean keyword. -/
structure Participant where
  id : String
  role : Role
  cls : Option String
deriving DecidableEq, Repr

/-- An event record as built by `handleCreateEvent` (src/bot.js
lines 1372-1381). -/
structure Event where
  id : String
  type : String
  date : Int
  organizer : String
  description : String
  groupType : GroupType
  participants : List Participant
  messageId : Option String
deriving DecidableEq, Repr

/-- `const ROLE_LIMITS = { tank: 2, healer: 2, dps: 4 }` (src/bot.js
line 859).  `ROLE_LIMITS[role]` is `undefined` for `blue_mage`, modelled as
`none`. -/
def ROLE_LIMITS : Role → Option Nat
  | .tank => some 2
  | .healer => some 2
  | .dps => some 4
  | .blue_mage => none

/-- The JS guard `roleCount >= ROLE_LIMITS[role]`: comparison against
`undefined` is `false`, so a role without a limit is never "full". -/
def roleLimitReached (r : Role) (n : Nat) : Bool :=
  match ROLE_LIMITS r with
  | some l => decide (l ≤ n)
  | none => false

/-- `const ROLE_CLASS = { ... }` (src/bot.js lines 868-873). -/
def ROLE_CLASS : Role → List String
  | .tank => ["Paladin", "Warrior", "Dark Knight", "Gunbreaker"]
  | .healer => ["White Mage", "Scholar", "Astrologian", "Sage"]
  | .dps => ["Monk", "Dragoon", "Ninja", "Samurai", "Reaper", "Bard",
      "Machinist", "Dancer", "Black Mage", "Summoner", "Red Mage",
      "Pictomancer", "Viper"]
  | .blue_mage => []

/-- Number of participants currently holding role `r`
(`event.participants.filter(p => p.role === role).length`, src/bot.js
lines 1594, 1693). -/
def countRole (ps : List Participant) (r : Role) : Nat :=
  ps.countP (fun p => decide (p.role = r))

/-- Number of participants holding role `r` other than user `u`
(`event.participants.filter(p => p.role === role && p.id !== userId).length`,
src/bot.js lines 1773, 1863). -/
def countRoleExcl (ps : List Participant) (u : String) (r : Role) : Nat :=
  ps.countP (fun p => decide (p.role = r ∧ ¬ p.id = u))

/-- The class actually stored on join / role change: the blue-mage paths
store the literal `'Blue Mage'` (src/bot.js lines 1604, 1785), the class
paths store the selected class name. -/
def storedClass (r : Role) (c : Option String) : Option String :=
  if r = .blue_mage then some "Blue Mage" else c

/-- Validation performed by the button handlers before touching the roster:
the blue-mage flow carries no class selection (src/bot.js line 1602), while
the tank/healer/dps flows go through class selection and check
`ROLE_CLASS[role].includes(className)` (src/bot.js lines 1674-1679). -/
def roleClassOk (r : Role) (c : Option String) : Bool :=
  match r, c with
  | .blue_mage, none => true
  | .blue_mage, some _ => false
  | _, none => false
  | rr, some cn => (ROLE_CLASS rr).contains cn

/-- Business-rule rejections surfaced by the handlers (§7 of the spec). -/
inductive OpError
  | AlreadyParticipating
  | EventFull
  | RoleFull
  | NotParticipating
  | InvalidClass
  | Forbidden
  | NotFound
deriving DecidableEq, Repr

/-- Join, as performed by the `role` (blue mage, src/bot.js lines 1580-1604)
and `class` (src/bot.js lines 1670-1700) button actions: class validation,
then the duplicate check, then the capacity check (`participants.length >= 8`
— hardcoded 8 for every group type), then the standard-only role quota, then
`participants.push({ id, role, class })`. -/
def joinEvent (e : Event) (u : String) (r : Role) (c : Option String) :
    Except OpError Event :=
  if ¬ roleClassOk r c = true then .error .InvalidClass
  else if ∃ p ∈ e.participants, p.id = u then .error .AlreadyParticipating
  else if 8 ≤ e.participants.length then .error .EventFull
  else if e.groupType = .standard ∧
      roleLimitReached r (countRole e.participants r) = true then
    .error .RoleFull
  else .ok { e with participants :=
    e.participants ++ [{ id := u, role := r, cls := storedClass r c }] }

/-- In-place mutation of the first participant whose id matches, as done by
`const participant = event.participants.find(...); participant.role = role;
participant.class = ...` (src/bot.js lines 1857, 1871-1872). -/
def updateFirst (ps : List Participant) (u : String) (r : Role)
    (c : Option String) : List Participant :=
  match ps with
  | [] => []
  | p :: rest =>
    if p.id = u then { p with role := r, cls := storedClass r c } :: rest
    else p :: updateFirst rest u r c

/-- Role change, as performed by the `rolechangeclass` action (src/bot.js
lines 1845-1873) and the direct blue-mage branch of `rolechange`
(lines 1773-1786): class validation, participant lookup, the role quota
counted excluding the requester (standard groups only), then in-place
mutation of the found record. -/
def changeRole (e : Event) (u : String) (r : Role) (c : Option String) :
    Except OpError Event :=
  if ¬ roleClassOk r c = true then .error .InvalidClass
  else
    match e.participants.find? (fun p => decide (p.id = u)) with
    | none => .error .NotParticipating
    | some _ =>
      if e.groupType = .standard ∧
          roleLimitReached r (countRoleExcl e.participants u r) = true then
        .error .RoleFull
      else .ok { e with participants := updateFirst e.participants u r c }

/-- Withdraw (src/bot.js lines 1507-1514): filter the roster on
`p.id !== userId`; if the length did not change the user was not
participating. -/
def withdraw (e : Event) (u : String) : Except OpError Event :=
  if (e.participants.filter (fun p => decide (¬ p.id = u))).length =
      e.participants.length then .error .NotParticipating
  else .ok { e with participants :=
    e.participants.filter (fun p => decide (¬ p.id = u)) }

/-- The participant-roster mutations reachable through the button handlers. -/
inductive Op
  | join (u : String) (r : Role) (c : Option String)
  | changeRole (u : String) (r : Role) (c : Option String)
  | withdraw (u : String)

/-- Apply one operation; a rejected operation leaves the event unchanged
(every error path replies to the interaction before any mutation). -/
def applyOp (e : Event) : Op → Event
  | .join u r c =>
    match joinEvent e u r c with
    | .ok e2 => e2
    | .error _ => e
  | .changeRole u r c =>
    match changeRole e u r c with
    | .ok e2 => e2
    | .error _ => e
  | .withdraw u =>
    match withdraw e u with
    | .ok e2 => e2
    | .error _ => e

/-- Run a sequence of roster operations. -/
def runOps (e : Event) (ops : List Op) : Event :=
  ops.foldl applyOp e

example : roleLimitReached .blue_mage 100 = false := by decide

example : roleClassOk .dps (some "Monk") = true := by decide

/-- A job's kind: the worker branches on `job.name.startsWith('cleanup_')`
(src/bot.js line 1992); `scheduleReminders` creates names prefixed
`reminder_` and `scheduleEventCleanup` names prefixed `cleanup_`, so the
prefix is equivalent to this tag. -/
inductive JobKind
  | reminder
  | cleanup
deriving DecidableEq, Repr

/-- A queued BullMQ job: its name plus the `job.data` payload
(`{ eventId, participantId, reminderType, eventDate }` for reminders,
`{ eventId }` for cleanup) and the delay passed to `reminderQueue.add`. -/
structure QJob where
  name : String
  kind : JobKind
  eventId : String
  participantId : Option String
  reminderType : Option String
  eventDateSnapshot : Option Int
  delay : Int
deriving DecidableEq, Repr

/-- The fixed reminder offsets (src/bot.js lines 1234-1238):
24 h, 12 h and 1 h in milliseconds, with their display labels. -/
def reminderTimes : List (Int × String) :=
  [(86400000, "24 hours"), (43200000, "12 hours"), (3600000, "1 hour")]

/-- The job enqueued for one participant and one offset (src/bot.js
lines 1248-1267): fire time is `eventTimestamp - delay`, i.e. the enqueue
delay is `reminderTime - now`. -/
def reminderJobOf (eid : String) (ts now : Int) (p : String) (off : Int)
    (lab : String) : QJob :=
  { name := "reminder_" ++ eid ++ "_" ++ p ++ "_" ++ lab
    kind := .reminder
    eventId := eid
    participantId := some p
    reminderType := some lab
    eventDateSnapshot := some ts
    delay := (ts - off) - now }

/-- Inner loop of `scheduleReminders` over the offset list: enqueue
only when `reminderTime > now`, otherwise skip silently (src/bot.js
lines 1244-1271). -/
def remindersForOffsets (eid : String) (ts now : Int) (p : String) :
    List (Int × String) → List QJob
  | [] => []
  | (off, lab) :: rest =>
    (if now < ts - off then [reminderJobOf eid ts now p off lab] else []) ++
      remindersForOffsets eid ts now p rest

/-- `scheduleReminders(eventId, eventDate, participants)` (src/bot.js
lines 1231-1291): for each participant id, each fixed offset. -/
def scheduleReminders (eid : String) (ts now : Int) :
    List String → List QJob
  | [] => []
  | p :: rest =>
    remindersForOffsets eid ts now p reminderTimes ++
      scheduleReminders eid ts now rest

/-- `scheduleEventCleanup(eventId, eventDate)` (src/bot.js
lines 1332-1345): one job at `date + 5 minutes`, only if that delay is
positive. -/
def scheduleEventCleanup (eid : String) (ts now : Int) : List QJob :=
  if 0 < ts - now + 300000 then
    [{ name := "cleanup_" ++ eid
       kind := .cleanup
       eventId := eid
       participantId := none
       reminderType := none
       eventDateSnapshot := none
       delay := ts - now + 300000 }]
  else []

/-- `cancelEventReminders(eventId)` (src/bot.js lines 1294-1311): remove
every pending job whose `data.eventId` matches — this filter does not look
at the job kind, so it removes the cleanup job too. -/
def cancelEventReminders (q : List QJob) (eid : String) : List QJob :=
  q.filter (fun j => decide (¬ j.eventId = eid))

/-- `cancelParticipantReminders(eventId, participantId)` (src/bot.js
lines 1314-1330). -/
def cancelParticipantReminders (q : List QJob) (eid pid : String) :
    List QJob :=
  q.filter (fun j =>
    decide (¬ (j.eventId = eid ∧ j.participantId = some pid)))

/-- Scheduler effect of a successful time change (src/bot.js
lines 2702-2703): `cancelEventReminders` then `scheduleReminders` against
every current participant and the new date. -/
def changeTimeReschedule (q : List QJob) (eid : String) (newTs now : Int)
    (pids : List String) : List QJob :=
  cancelEventReminders q eid ++ scheduleReminders eid newTs now pids

/-- A DM tracking record as written by `saveDMMessageForEvent`
(src/bot.js lines 62-72). -/
structure DMRecord where
  eventId : String
  userId : String
  messageId : String
  messageType : String
  timestamp : Int
deriving DecidableEq, Repr

/-- The shared mutable world: the Redis `events` hash, the DM-tracking
records (all `dm_messages:{eventId}` hashes flattened), the announcement
messages present in the event channel and the pending job queue. -/
structure WorldState where
  events : List (String × Event)
  dmRecords : List DMRecord
  channelMessages : List String
  queue : List QJob
deriving DecidableEq, Repr

/-- `getEventFromRedis` (src/bot.js lines 52-55). -/
def lookupEvent (evs : List (String × Event)) (eid : String) :
    Option Event :=
  (evs.find? (fun kv => decide (kv.1 = eid))).map Prod.snd

/-- `deleteEventFromRedis` (src/bot.js lines 57-59). -/
def deleteEventEntry (evs : List (String × Event)) (eid : String) :
    List (String × Event) :=
  evs.filter (fun kv => decide (¬ kv.1 = eid))

/-- The reminder branch of the BullMQ worker (src/bot.js lines 2022-2061):
reload the event; a missing event or a no-longer-listed participant is a
silent no-op (`return`), otherwise a reminder DM is dispatched to the
participant.  The result is the dispatched notification, if any. -/
def runReminderJob (evs : List (String × Event)) (eid pid : String) :
    Option (String × String) :=
  match lookupEvent evs eid with
  | none => none
  | some ev =>
    if ∃ p ∈ ev.participants, p.id = pid then some (pid, eid) else none

/-- `pruneDMsForCompletedEvent` (src/bot.js lines 87-140): if the event
date is still in the future, return without touching anything; otherwise
delete the tracked DM messages and drop the whole tracking record set. -/
def pruneDMs (st : WorldState) (eid : String) (ev : Event) (now : Int) :
    WorldState :=
  if now < ev.date then st
  else { st with dmRecords :=
    st.dmRecords.filter (fun rec => decide (¬ rec.eventId = eid)) }

/-- The cleanup branch of the worker (src/bot.js lines 1992-2018): reload
the event; if missing, no-op; otherwise prune DMs (itself guarded on the
date), then delete the announcement message, then delete the event record —
the last two steps are unconditional. -/
def runCleanupJob (st : WorldState) (eid : String) (now : Int) :
    WorldState :=
  match lookupEvent st.events eid with
  | none => st
  | some ev =>
    let st1 := pruneDMs st eid ev now
    let st2 :=
      match ev.messageId with
      | some m =>
        { st1 with channelMessages :=
          st1.channelMessages.filter (fun x => decide (¬ x = m)) }
      | none => st1
    { st2 with events := deleteEventEntry st2.events eid }

/-- The cancellation tracking records created by the delete handler's DM
fan-out (src/bot.js lines 1945-1966): one `cancellation` record per
non-organizer participant; `mkMsgId` stands for the Discord-assigned id of
each sent DM. -/
def cancellationRecords (eid : String) (ev : Event)
    (mkMsgId : String → String) (now : Int) : List DMRecord :=
  (ev.participants.filter (fun p => decide (¬ p.id = ev.organizer))).map
    (fun p =>
      { eventId := eid
        userId := p.id
        messageId := mkMsgId p.id
        messageType := "cancellation"
        timestamp := now })

/-- The `delete` button action (src/bot.js lines 1929-1984): authorization
(organizer or authorized role), `cancelEventReminders`, cancellation DMs to
every non-organizer participant (each tracked via `saveDMMessageForEvent`),
`deleteEventFromRedis`, then deletion of the announcement message.  Note
that `deleteDMMessagesForEvent` is never called on this path. -/
def deleteEvent (st : WorldState) (eid requesterId : String)
    (hasAuthRole : Bool) (mkMsgId : String → String) (now : Int) :
    Except OpError WorldState :=
  match lookupEvent st.events eid with
  | none => .error .NotFound
  | some ev =>
    if requesterId = ev.organizer ∨ hasAuthRole = true then
      .ok
        { events := deleteEventEntry st.events eid
          dmRecords := st.dmRecords ++ cancellationRecords eid ev mkMsgId now
          channelMessages :=
            match ev.messageId with
            | some m =>
              st.channelMessages.filter (fun x => decide (¬ x = m))
            | none => st.channelMessages
          queue := cancelEventReminders st.queue eid }
    else .error .Forbidden

/-! ## Concrete fixtures used by witnesses and counterexamples -/

/-- A `light_party` event whose roster already holds 4 participants —
its announced capacity (src/bot.js lines 742, 922, 1103: "4 players max"). -/
def lightPartyFull4 : Event :=
  { id := "event_1"
    type := "maps"
    date := 1000000000
    organizer := "org"
    description := ""
    groupType := .light_party
    participants :=
      [{ id := "u1", role := .dps, cls := some "Monk" },
       { id := "u2", role := .tank, cls := some "Paladin" },
       { id := "u3", role := .healer, cls := some "Sage" },
       { id := "u4", role := .dps, cls := some "Bard" }]
    messageId := some "m1" }

/-- A standard event dated in the future (timestamp 1000000) with one
participant. -/
def futureEvent : Event :=
  { id := "e1"
    type := "maps"
    date := 1000000
    organizer := "org"
    description := ""
    groupType := .standard
    participants := [{ id := "u1", role := .dps, cls := some "Monk" }]
    messageId := some "m1" }

/-- A tracked registration DM for `futureEvent`. -/
def dmRecEx : DMRecord :=
  { eventId := "e1", userId := "u1", messageId := "dm1"
    messageType := "registration", timestamp := 0 }

/-- World holding `futureEvent`, its tracked DM and its rendered
announcement. -/
def stFuture : WorldState :=
  { events := [("e1", futureEvent)]
    dmRecords := [dmRecEx]
    channelMessages := ["m1"]
    queue := [] }

/-- Stand-in for the Discord-assigned id of each cancellation DM. -/
def mkMsgIdEx : String → String := fun u => String.append "cxl_" u

/-! ## General helper lemmas -/

theorem lookupEvent_deleteEventEntry (evs : List (String × Event))
    (eid : String) : lookupEvent (deleteEventEntry evs eid) eid = none := by
  unfold lookupEvent deleteEventEntry
  rw [Option.map_eq_none', List.find?_eq_none]
  intro kv hkv
  have h := (List.mem_filter.mp hkv).2
  simp only [decide_eq_true_eq] at h ⊢
  exact h

theorem mem_remindersForOffsets_iff (eid : String) (ts now : Int)
    (p : String) (j : QJob) (l : List (Int × String)) :
    j ∈ remindersForOffsets eid ts now p l ↔
      ∃ ol ∈ l, now < ts - ol.1 ∧ j = reminderJobOf eid ts now p ol.1 ol.2 := by
  induction l with
  | nil => simp [remindersForOffsets]
  | cons hd tl ih =>
    obtain ⟨off, lab⟩ := hd
    simp only [remindersForOffsets, List.mem_append, ih, List.mem_cons]
    constructor
    · rintro (hj | ⟨ol, hol, hcond, rfl⟩)
      · split at hj
        · rename_i hcond
          simp only [List.mem_singleton] at hj
          exact ⟨(off, lab), Or.inl rfl, hcond, hj⟩
        · simp at hj
      · exact ⟨ol, Or.inr hol, hcond, rfl⟩
    · rintro ⟨ol, hol | hol, hcond, rfl⟩
      · subst hol
        left
        rw [if_pos hcond]
        simp
      · exact Or.inr ⟨ol, hol, hcond, rfl⟩

theorem mem_scheduleReminders_iff (eid : String) (ts now : Int)
    (pids : List String) (j : QJob) :
    j ∈ scheduleReminders eid ts now pids ↔
      ∃ p ∈ pids, ∃ ol ∈ reminderTimes,
        now < ts - ol.1 ∧ j = reminderJobOf eid ts now p ol.1 ol.2 := by
  induction pids with
  | nil => simp [scheduleReminders]
  | cons p rest ih =>
    simp only [scheduleReminders, List.mem_append, ih,
      mem_remindersForOffsets_iff, List.mem_cons]
    constructor
    · rintro (⟨ol, hol, hcond, rfl⟩ | ⟨q, hq, ol, hol, hcond, rfl⟩)
      · exact ⟨p, Or.inl rfl, ol, hol, hcond, rfl⟩
      · exact ⟨q, Or.inr hq, ol, hol, hcond, rfl⟩
    · rintro ⟨q, hq | hq, ol, hol, hcond, rfl⟩
      · subst hq
        exact Or.inl ⟨ol, hol, hcond, rfl⟩
      · exact Or.inr ⟨q, hq, ol, hol, hcond, rfl⟩

theorem kind_of_mem_scheduleReminders (eid : String) (ts now : Int)
    (pids : List String) (j : QJob)
    (hj : j ∈ scheduleReminders eid ts now pids) :
    j.kind = JobKind.reminder := by
  obtain ⟨p, _, ol, _, _, rfl⟩ := (mem_scheduleReminders_iff eid ts now pids j).mp hj
  rfl

/-! ## Claim theorems -/

/-- C1 (code bug evaluation): the join handler's capacity check is the
hardcoded `participants.length >= 8` (src/bot.js lines 1590, 1688) for
every group type, so a fifth user joining a `light_party` event that
already has its announced maximum of 4 participants is accepted and the
roster grows to 5 — the claimed `EventFull` rejection at capacity 4 does
not happen. -/
theorem lightparty_fifth_join_accepted :
    (joinEvent lightPartyFull4 "u5" .dps (some "Ninja")).toOption.map
      (fun e => e.participants.length) = some 5 := by decide

/-- C6: a join attempt by a user id already on the roster is rejected with
`AlreadyParticipating` and the event is unchanged afterwards. -/
theorem duplicate_join_rejected (e : Event) (u : String) (r : Role)
    (c : Option String) (hcls : roleClassOk r c = true)
    (hmem : ∃ p ∈ e.participants, p.id = u) :
    joinEvent e u r c = .error .AlreadyParticipating ∧
      applyOp e (.join u r c) = e := by
  have h1 : joinEvent e u r c = .error .AlreadyParticipating := by
    unfold joinEvent
    rw [if_neg (by simp [hcls]), if_pos hmem]
  refine ⟨h1, ?_⟩
  simp only [applyOp, h1]

theorem duplicate_join_rejected_witness :
    joinEvent lightPartyFull4 "u1" .dps (some "Monk") =
        .error .AlreadyParticipating ∧
      applyOp lightPartyFull4 (.join "u1" .dps (some "Monk")) =
        lightPartyFull4 :=
  duplicate_join_rejected lightPartyFull4 "u1" .dps (some "Monk")
    (by decide) (by decide)

/-- C9: when a reminder job fires the event is reloaded; the job dispatches
a notification exactly when the event still exists and the target
participant is still listed, and in that case the notification goes to that
participant; otherwise it completes as a silent no-op. -/
theorem reminder_fire_reload_and_check (evs : List (String × Event))
    (eid pid : String) :
    ((runReminderJob evs eid pid).isSome = true ↔
      ∃ ev, lookupEvent evs eid = some ev ∧ ∃ p ∈ ev.participants, p.id = pid)
    ∧ ∀ ev, lookupEvent evs eid = some ev →
        (∃ p ∈ ev.participants, p.id = pid) →
        runReminderJob evs eid pid = some (pid, eid) := by
  unfold runReminderJob
  cases h : lookupEvent evs eid with
  | none => simp
  | some ev =>
    constructor
    · by_cases hp : ∃ p ∈ ev.participants, p.id = pid
      · simp [hp]
      · simp [hp]
    · intro ev2 hev2 hp
      cases hev2
      simp [hp]

theorem reminder_fire_reload_and_check_witness :
    ((runReminderJob stFuture.events "e1" "u1").isSome = true ↔
      ∃ ev, lookupEvent stFuture.events "e1" = some ev ∧
        ∃ p ∈ ev.participants, p.id = "u1")
    ∧ ∀ ev, lookupEvent stFuture.events "e1" = some ev →
        (∃ p ∈ ev.participants, p.id = "u1") →
        runReminderJob stFuture.events "e1" "u1" = some ("u1", "e1") :=
  reminder_fire_reload_and_check stFuture.events "e1" "u1"

/-- C10: after a time change the queue holds no cleanup job for the event —
the cancel step filters on `data.eventId` alone (matching the cleanup job
too) and the rescheduling step creates only reminder jobs. -/
theorem changeTime_no_cleanup_pending (q : List QJob) (eid : String)
    (newTs now : Int) (pids : List String) (j : QJob)
    (hj : j ∈ changeTimeReschedule q eid newTs now pids)
    (he : j.eventId = eid) : j.kind ≠ JobKind.cleanup := by
  unfold changeTimeReschedule at hj
  rcases List.mem_append.mp hj with h | h
  · unfold cancelEventReminders at h
    have h2 := (List.mem_filter.mp h).2
    simp only [decide_eq_true_eq] at h2
    exact absurd he h2
  · rw [kind_of_mem_scheduleReminders eid newTs now pids j h]
    intro hcontra
    cases hcontra

theorem changeTime_no_cleanup_pending_witness :
    (reminderJobOf "e1" 1000000000 0 "u1" 86400000 "24 hours").kind ≠
      JobKind.cleanup :=
  changeTime_no_cleanup_pending
    [{ name := "cleanup_e1", kind := .cleanup, eventId := "e1",
       participantId := none, reminderType := none,
       eventDateSnapshot := none, delay := 5 }]
    "e1" 1000000000 0 ["u1"]
    (reminderJobOf "e1" 1000000000 0 "u1" 86400000 "24 hours")
    (by decide) (by decide)

/-- C8: for each participant and each fixed offset (24h/12h/1h), the
reminder job with fire time `date - offset` is enqueued iff that fire time
is still strictly in the future at scheduling time; past offsets are
skipped. -/
theorem reminder_enqueued_iff (eid : String) (ts now : Int)
    (pids : List String) (p : String) (off : Int) (lab : String)
    (hoff : (off, lab) ∈ reminderTimes) (hp : p ∈ pids) :
    reminderJobOf eid ts now p off lab ∈ scheduleReminders eid ts now pids ↔
      now < ts - off := by
  constructor
  · intro hmem
    obtain ⟨q, _, ol, _, hcond, heq⟩ :=
      (mem_scheduleReminders_iff eid ts now pids _).mp hmem
    have hdelay := congrArg QJob.delay heq
    simp only [reminderJobOf] at hdelay
    have : off = ol.1 := by omega
    rw [this]
    exact hcond
  · intro hcond
    exact (mem_scheduleReminders_iff eid ts now pids _).mpr
      ⟨p, hp, (off, lab), hoff, hcond, rfl⟩

theorem reminder_enqueued_iff_witness :
    (reminderJobOf "e1" 1000000000 0 "u1" 86400000 "24 hours" ∈
        scheduleReminders "e1" 1000000000 0 ["u1"] ↔
      (0 : Int) < 1000000000 - 86400000) :=
  reminder_enqueued_iff "e1" 1000000000 0 ["u1"] "u1" 86400000 "24 hours"
    (by decide) (by decide)

/-- C2 (counterexample): a cleanup job firing on an event whose date is
still in the future is not a no-op — only the DM pruning is skipped, while
the announcement message is deleted and the Event record is removed from
the store.  Here the event is dated 1000000 and cleanup fires at time 0. -/
theorem cleanup_future_event_not_noop_cx :
    lookupEvent (runCleanupJob stFuture "e1" 0).events "e1" = none ∧
      (runCleanupJob stFuture "e1" 0).channelMessages = [] ∧
      (runCleanupJob stFuture "e1" 0).dmRecords = [dmRecEx] := by decide

/-- C2 (amended): when cleanup fires for an event whose date is still in
the future, the DM-tracking records are left untouched, but the rendered
announcement is still removed and the Event record is still deleted from
the store. -/
theorem cleanup_future_event_behavior (st : WorldState) (eid : String)
    (ev : Event) (now : Int) (hev : lookupEvent st.events eid = some ev)
    (hfut : now < ev.date) :
    (runCleanupJob st eid now).dmRecords = st.dmRecords ∧
      lookupEvent (runCleanupJob st eid now).events eid = none ∧
      ∀ m, ev.messageId = some m →
        m ∉ (runCleanupJob st eid now).channelMessages := by
  unfold runCleanupJob
  rw [hev]
  simp only [pruneDMs, if_pos hfut]
  refine ⟨?_, ?_, ?_⟩
  · cases ev.messageId <;> rfl
  · cases ev.messageId <;> exact lookupEvent_deleteEventEntry _ _
  · intro m hm
    rw [hm]
    simp [List.mem_filter]

theorem cleanup_future_event_behavior_witness :
    (runCleanupJob stFuture "e1" 0).dmRecords = stFuture.dmRecords ∧
      lookupEvent (runCleanupJob stFuture "e1" 0).events "e1" = none ∧
      ∀ m, futureEvent.messageId = some m →
        m ∉ (runCleanupJob stFuture "e1" 0).channelMessages :=
  cleanup_future_event_behavior stFuture "e1" futureEvent 0
    (by decide) (by decide)

/-- C3 (counterexample): a successful organizer delete of `futureEvent`
leaves DM-tracking records for the event behind — the pre-existing
registration record plus a freshly tracked cancellation record — instead of
the claimed empty record set (the delete handler never calls
`deleteDMMessagesForEvent`). -/
theorem delete_keeps_dm_records_cx :
    (deleteEvent stFuture "e1" "org" false mkMsgIdEx 0).toOption.map
      (fun s => (s.dmRecords.filter
        (fun rec => decide (rec.eventId = "e1"))).length) = some 2 := by
  decide

/-- C3 (amended): a successful delete by the organizer removes the Event
record (a subsequent store lookup returns not-found) and cancels every
pending job of the event, but it does not delete the event's DM-tracking
records: the prior records are all retained, with the cancellation
notifications' tracking records appended. -/
theorem delete_event_behavior (st : WorldState) (eid req : String)
    (ev : Event) (mkMsgId : String → String) (now : Int)
    (hev : lookupEvent st.events eid = some ev) (hreq : req = ev.organizer) :
    ∃ st2, deleteEvent st eid req false mkMsgId now = .ok st2 ∧
      lookupEvent st2.events eid = none ∧
      st2.dmRecords = st.dmRecords ++ cancellationRecords eid ev mkMsgId now ∧
      ∀ j ∈ st2.queue, ¬ j.eventId = eid := by
  have hok : deleteEvent st eid req false mkMsgId now =
      .ok { events := deleteEventEntry st.events eid
            dmRecords :=
              st.dmRecords ++ cancellationRecords eid ev mkMsgId now
            channelMessages :=
              match ev.messageId with
              | some m =>
                st.channelMessages.filter (fun x => decide (¬ x = m))
              | none => st.channelMessages
            queue := cancelEventReminders st.queue eid } := by
    unfold deleteEvent
    rw [hev]
    exact if_pos (Or.inl hreq)
  refine ⟨_, hok, ?_, rfl, ?_⟩
  · exact lookupEvent_deleteEventEntry _ _
  · intro j hj
    have h2 := (List.mem_filter.mp hj).2
    simpa using h2

theorem delete_event_behavior_witness :
    ∃ st2, deleteEvent stFuture "e1" "org" false mkMsgIdEx 0 = .ok st2 ∧
      lookupEvent st2.events "e1" = none ∧
      st2.dmRecords =
        stFuture.dmRecords ++ cancellationRecords "e1" futureEvent mkMsgIdEx 0 ∧
      ∀ j ∈ st2.queue, ¬ j.eventId = "e1" :=
  delete_event_behavior stFuture "e1" "org" futureEvent mkMsgIdEx 0
    (by decide) (by decide)

/-! ## Counting and roster lemmas for the quota invariant -/

theorem countRole_append (ps : List Participant) (q : Participant)
    (r : Role) :
    countRole (ps ++ [q]) r =
      countRole ps r + (if q.role = r then 1 else 0) := by
  unfold countRole
  rw [List.countP_append]
  simp [List.countP_cons]

theorem countRole_filter_le (ps : List Participant) (f : Participant → Bool)
    (r : Role) : countRole (ps.filter f) r ≤ countRole ps r :=
  (List.filter_sublist ps).countP_le _

theorem updateFirst_map_id (ps : List Participant) (u : String) (r : Role)
    (c : Option String) :
    (updateFirst ps u r c).map Participant.id = ps.map Participant.id := by
  induction ps with
  | nil => rfl
  | cons p rest ih =>
    unfold updateFirst
    split
    · rfl
    · simp only [List.map_cons, ih]

theorem countRole_updateFirst_ne (ps : List Participant) (u : String)
    (r : Role) (c : Option String) (s : Role) (hs : ¬ s = r) :
    countRole (updateFirst ps u r c) s ≤ countRole ps s := by
  induction ps with
  | nil => simp [updateFirst]
  | cons p rest ih =>
    unfold updateFirst countRole
    unfold countRole at ih
    split
    · rw [List.countP_cons, List.countP_cons]
      have hne : ¬ (r = s) := fun h => hs h.symm
      simp only [decide_eq_true_eq]
      rw [if_neg hne]
      omega
    · rw [List.countP_cons, List.countP_cons]
      omega

theorem countRoleExcl_eq_countRole (ps : List Participant) (u : String)
    (r : Role) (h : ∀ p ∈ ps, ¬ p.id = u) :
    countRoleExcl ps u r = countRole ps r := by
  unfold countRoleExcl countRole
  induction ps with
  | nil => rfl
  | cons p rest ih =>
    rw [List.countP_cons, List.countP_cons,
      ih (fun q hq => h q (List.mem_cons_of_mem _ hq))]
    congr 1
    have hp : ¬ p.id = u := h p (List.mem_cons_self _ _)
    by_cases hr : p.role = r
    · simp [hr, hp]
    · simp [hr]

theorem countRole_updateFirst_target (ps : List Participant) (u : String)
    (r : Role) (c : Option String)
    (hnd : (ps.map Participant.id).Nodup) :
    countRole (updateFirst ps u r c) r ≤ countRoleExcl ps u r + 1 := by
  induction ps with
  | nil => simp [updateFirst, countRole, countRoleExcl]
  | cons p rest ih =>
    rw [List.map_cons, List.nodup_cons] at hnd
    obtain ⟨hpid, hnd2⟩ := hnd
    unfold updateFirst
    split
    · rename_i hid
      have hnotin : ∀ q ∈ rest, ¬ q.id = u := by
        intro q hq hqu
        exact hpid (hid ▸ hqu ▸ List.mem_map_of_mem Participant.id hq)
      unfold countRole countRoleExcl
      rw [List.countP_cons, List.countP_cons]
      have h3 := countRoleExcl_eq_countRole rest u r hnotin
      unfold countRoleExcl countRole at h3
      split_ifs <;> omega
    · rename_i hid
      unfold countRole countRoleExcl at ih ⊢
      rw [List.countP_cons, List.countP_cons]
      have heq : (decide (p.role = r ∧ ¬ p.id = u)) = decide (p.role = r) := by
        simp [hid]
      rw [heq]
      have h4 := ih hnd2
      omega

theorem countRole_eq_excl_add (ps : List Participant) (u : String)
    (r : Role) :
    countRole ps r = countRoleExcl ps u r +
      ps.countP (fun p => decide (p.role = r ∧ p.id = u)) := by
  unfold countRole countRoleExcl
  induction ps with
  | nil => rfl
  | cons p rest ih =>
    rw [List.countP_cons, List.countP_cons, List.countP_cons, ih]
    by_cases hr : p.role = r
    · by_cases hu : p.id = u
      · simp only [hr, hu, decide_eq_true_eq]
        simp
        omega
      · simp only [hr, hu, decide_eq_true_eq]
        simp [hu]
        omega
    · simp [hr]

/-! ## Inversion lemmas for the operations -/

theorem joinEvent_ok_inv {e : Event} {u : String} {r : Role}
    {c : Option String} {e2 : Event} (h : joinEvent e u r c = .ok e2) :
    (¬ ∃ p ∈ e.participants, p.id = u) ∧ e.participants.length < 8 ∧
      ¬ (e.groupType = .standard ∧
        roleLimitReached r (countRole e.participants r) = true) ∧
      e2 = { e with participants := e.participants ++
        [{ id := u, role := r, cls := storedClass r c }] } := by
  unfold joinEvent at h
  split_ifs at h with h1 h2 h3 h4
  · injection h with h
    exact ⟨h2, by omega, h4, h.symm⟩

theorem changeRole_ok_inv {e : Event} {u : String} {r : Role}
    {c : Option String} {e2 : Event} (h : changeRole e u r c = .ok e2) :
    (∃ p, e.participants.find? (fun q => decide (q.id = u)) = some p) ∧
      ¬ (e.groupType = .standard ∧
        roleLimitReached r (countRoleExcl e.participants u r) = true) ∧
      e2 = { e with participants := updateFirst e.participants u r c } := by
  unfold changeRole at h
  by_cases h1 : roleClassOk r c = true
  · rw [if_neg (fun hc => hc h1)] at h
    cases hfind : e.participants.find? (fun p => decide (p.id = u)) with
    | none =>
      rw [hfind] at h
      simp at h
    | some p =>
      rw [hfind] at h
      by_cases h2 : e.groupType = .standard ∧
          roleLimitReached r (countRoleExcl e.participants u r) = true
      · rw [if_pos h2] at h
        simp at h
      · rw [if_neg h2] at h
        injection h with h
        exact ⟨⟨p, rfl⟩, h2, h.symm⟩
  · rw [if_pos h1] at h
    simp at h

theorem withdraw_ok_inv {e : Event} {u : String} {e2 : Event}
    (h : withdraw e u = .ok e2) :
    e2 = { e with participants :=
      e.participants.filter (fun p => decide (¬ p.id = u)) } := by
  unfold withdraw at h
  split_ifs at h with h1
  injection h with h
  rw [← h]

/-! ## The roster invariant and its preservation -/

/-- Participant-id uniqueness within one event's roster. -/
def pidNodup (ps : List Participant) : Prop :=
  (ps.map Participant.id).Nodup

/-- The roster invariant: unique participant ids, and for standard events
the per-role caps 2/2/4 on tank/healer/dps. -/
def EventInv (e : Event) : Prop :=
  pidNodup e.participants ∧
  (e.groupType = .standard →
    countRole e.participants .tank ≤ 2 ∧
    countRole e.participants .healer ≤ 2 ∧
    countRole e.participants .dps ≤ 4)

theorem joinEvent_preserves_inv {e : Event} {u : String} {r : Role}
    {c : Option String} {e2 : Event} (h : joinEvent e u r c = .ok e2)
    (hi : EventInv e) : EventInv e2 := by
  obtain ⟨hnm, hlen, hq, rfl⟩ := joinEvent_ok_inv h
  have hpid := hi.1
  constructor
  · unfold pidNodup at hpid ⊢
    rw [List.map_append]
    refine List.Nodup.append hpid (by simp) ?_
    intro a ha hb
    simp only [List.map_cons, List.map_nil, List.mem_singleton] at hb
    subst hb
    rw [List.mem_map] at ha
    obtain ⟨p, hp, hpeq⟩ := ha
    exact hnm ⟨p, hp, hpeq⟩
  · intro hstd
    have hstd2 : e.groupType = .standard := hstd
    have hcounts := hi.2 hstd2
    have hrlAux : ∀ L, ROLE_LIMITS r = some L →
        countRole e.participants r < L := by
      intro L hL
      by_contra hge
      push_neg at hge
      apply hq
      refine ⟨hstd2, ?_⟩
      unfold roleLimitReached
      rw [hL]
      simpa using hge
    have happ : ∀ s, countRole (e.participants ++
        [{ id := u, role := r, cls := storedClass r c }]) s =
        countRole e.participants s + (if r = s then 1 else 0) := by
      intro s
      rw [countRole_append]
    show countRole (e.participants ++
        [{ id := u, role := r, cls := storedClass r c }]) Role.tank ≤ 2 ∧
      countRole (e.participants ++
        [{ id := u, role := r, cls := storedClass r c }]) Role.healer ≤ 2 ∧
      countRole (e.participants ++
        [{ id := u, role := r, cls := storedClass r c }]) Role.dps ≤ 4
    refine ⟨?_, ?_, ?_⟩
    · rw [happ .tank]
      by_cases hr : r = Role.tank
      · subst hr
        have hlt := hrlAux 2 rfl
        rw [if_pos rfl]
        omega
      · rw [if_neg hr]
        have := hcounts.1
        omega
    · rw [happ .healer]
      by_cases hr : r = Role.healer
      · subst hr
        have hlt := hrlAux 2 rfl
        rw [if_pos rfl]
        omega
      · rw [if_neg hr]
        have := hcounts.2.1
        omega
    · rw [happ .dps]
      by_cases hr : r = Role.dps
      · subst hr
        have hlt := hrlAux 4 rfl
        rw [if_pos rfl]
        omega
      · rw [if_neg hr]
        have := hcounts.2.2
        omega

theorem changeRole_preserves_inv {e : Event} {u : String} {r : Role}
    {c : Option String} {e2 : Event} (h : changeRole e u r c = .ok e2)
    (hi : EventInv e) : EventInv e2 := by
  obtain ⟨⟨p, hp⟩, hq, rfl⟩ := changeRole_ok_inv h
  have hpid := hi.1
  constructor
  · unfold pidNodup at hpid ⊢
    rw [updateFirst_map_id]
    exact hpid
  · intro hstd
    have hstd2 : e.groupType = .standard := hstd
    have hcounts := hi.2 hstd2
    have hrlAux : ∀ L, ROLE_LIMITS r = some L →
        countRoleExcl e.participants u r < L := by
      intro L hL
      by_contra hge
      push_neg at hge
      apply hq
      refine ⟨hstd2, ?_⟩
      unfold roleLimitReached
      rw [hL]
      simpa using hge
    have htgt : countRole (updateFirst e.participants u r c) r ≤
        countRoleExcl e.participants u r + 1 :=
      countRole_updateFirst_target e.participants u r c hpid
    have hne : ∀ s, ¬ s = r →
        countRole (updateFirst e.participants u r c) s ≤
          countRole e.participants s :=
      fun s hs => countRole_updateFirst_ne e.participants u r c s hs
    show countRole (updateFirst e.participants u r c) Role.tank ≤ 2 ∧
      countRole (updateFirst e.participants u r c) Role.healer ≤ 2 ∧
      countRole (updateFirst e.participants u r c) Role.dps ≤ 4
    refine ⟨?_, ?_, ?_⟩
    · by_cases hr : Role.tank = r
      · subst hr
        have hlt := hrlAux 2 rfl
        omega
      · exact le_trans (hne .tank hr) hcounts.1
    · by_cases hr : Role.healer = r
      · subst hr
        have hlt := hrlAux 2 rfl
        omega
      · exact le_trans (hne .healer hr) hcounts.2.1
    · by_cases hr : Role.dps = r
      · subst hr
        have hlt := hrlAux 4 rfl
        omega
      · exact le_trans (hne .dps hr) hcounts.2.2

theorem withdraw_preserves_inv {e : Event} {u : String} {e2 : Event}
    (h : withdraw e u = .ok e2) (hi : EventInv e) : EventInv e2 := by
  obtain rfl := withdraw_ok_inv h
  have hpid := hi.1
  constructor
  · unfold pidNodup at hpid ⊢
    exact hpid.sublist ((List.filter_sublist e.participants).map _)
  · intro hstd
    have hcounts := hi.2 hstd
    exact ⟨le_trans (countRole_filter_le _ _ _) hcounts.1,
      le_trans (countRole_filter_le _ _ _) hcounts.2.1,
      le_trans (countRole_filter_le _ _ _) hcounts.2.2⟩

theorem applyOp_preserves_inv (e : Event) (op : Op) (hi : EventInv e) :
    EventInv (applyOp e op) := by
  cases op with
  | join u r c =>
    simp only [applyOp]
    cases h : joinEvent e u r c with
    | ok e2 => exact joinEvent_preserves_inv h hi
    | error _ => exact hi
  | changeRole u r c =>
    simp only [applyOp]
    cases h : changeRole e u r c with
    | ok e2 => exact changeRole_preserves_inv h hi
    | error _ => exact hi
  | withdraw u =>
    simp only [applyOp]
    cases h : withdraw e u with
    | ok e2 => exact withdraw_preserves_inv h hi
    | error _ => exact hi

theorem runOps_preserves_inv (ops : List Op) (e : Event) (hi : EventInv e) :
    EventInv (runOps e ops) := by
  induction ops generalizing e with
  | nil => exact hi
  | cons op rest ih =>
    exact ih (applyOp e op) (applyOp_preserves_inv e op hi)

theorem applyOp_groupType (e : Event) (op : Op) :
    (applyOp e op).groupType = e.groupType := by
  cases op with
  | join u r c =>
    simp only [applyOp]
    cases h : joinEvent e u r c with
    | ok e2 =>
      obtain ⟨_, _, _, rfl⟩ := joinEvent_ok_inv h
      rfl
    | error _ => rfl
  | changeRole u r c =>
    simp only [applyOp]
    cases h : changeRole e u r c with
    | ok e2 =>
      obtain ⟨_, _, rfl⟩ := changeRole_ok_inv h
      rfl
    | error _ => rfl
  | withdraw u =>
    simp only [applyOp]
    cases h : withdraw e u with
    | ok e2 =>
      obtain rfl := withdraw_ok_inv h
      rfl
    | error _ => rfl

theorem runOps_groupType (ops : List Op) (e : Event) :
    (runOps e ops).groupType = e.groupType := by
  induction ops generalizing e with
  | nil => rfl
  | cons op rest ih =>
    exact (ih (applyOp e op)).trans (applyOp_groupType e op)

/-- A freshly created standard event (empty roster, as built by
`handleCreateEvent`). -/
def emptyStandardEvent : Event :=
  { id := "e2"
    type := "maps"
    date := 1000
    organizer := "org"
    description := ""
    groupType := .standard
    participants := []
    messageId := none }

/-- A short operation sequence against `emptyStandardEvent`. -/
def opsEx : List Op :=
  [Op.join "a" .tank (some "Paladin"),
   Op.join "b" .tank (some "Warrior"),
   Op.join "c" .dps (some "Monk"),
   Op.changeRole "c" .healer (some "Sage"),
   Op.withdraw "b"]

/-- A standard event whose tank quota is exactly full, t1 holding one of
the two tank slots. -/
def standardTwoTanks : Event :=
  { id := "e3"
    type := "maps"
    date := 1000
    organizer := "org"
    description := ""
    groupType := .standard
    participants :=
      [{ id := "t1", role := .tank, cls := some "Paladin" },
       { id := "t2", role := .tank, cls := some "Warrior" },
       { id := "d1", role := .dps, cls := some "Monk" }]
    messageId := none }

/-- C4: for a standard event, any sequence of join/changeRole/withdraw
operations keeps the per-role counts within the quotas 2/2/4 for
tank/healer/dps, and a join or role change that would exceed a quota is
rejected with `RoleFull`. -/
theorem standard_role_quota (e : Event) (ops : List Op)
    (hg : e.groupType = GroupType.standard) (h0 : e.participants = []) :
    (countRole (runOps e ops).participants .tank ≤ 2 ∧
     countRole (runOps e ops).participants .healer ≤ 2 ∧
     countRole (runOps e ops).participants .dps ≤ 4) ∧
    (∀ (e2 : Event) (u : String) (r : Role) (c : Option String) (L : Nat),
      roleClassOk r c = true →
      (¬ ∃ p ∈ e2.participants, p.id = u) →
      e2.participants.length < 8 →
      e2.groupType = GroupType.standard →
      ROLE_LIMITS r = some L →
      L ≤ countRole e2.participants r →
      joinEvent e2 u r c = .error .RoleFull) ∧
    (∀ (e2 : Event) (u : String) (r : Role) (c : Option String) (L : Nat)
        (p : Participant),
      roleClassOk r c = true →
      e2.participants.find? (fun q => decide (q.id = u)) = some p →
      e2.groupType = GroupType.standard →
      ROLE_LIMITS r = some L →
      L ≤ countRoleExcl e2.participants u r →
      changeRole e2 u r c = .error .RoleFull) := by
  refine ⟨?_, ?_, ?_⟩
  · have hinv : EventInv e := by
      constructor
      · unfold pidNodup
        rw [h0]
        simp
      · intro _
        rw [h0]
        simp [countRole]
    have h2 := (runOps_preserves_inv ops e hinv).2
    exact h2 ((runOps_groupType ops e).trans hg)
  · intro e2 u r c L hcls hnm hlen hstd hL hge
    unfold joinEvent
    rw [if_neg (fun hc => hc hcls), if_neg hnm,
      if_neg (Nat.not_le.mpr hlen)]
    refine if_pos ⟨hstd, ?_⟩
    unfold roleLimitReached
    rw [hL]
    simpa using hge
  · intro e2 u r c L p hcls hfind hstd hL hge
    unfold changeRole
    rw [if_neg (fun hc => hc hcls), hfind]
    refine if_pos ⟨hstd, ?_⟩
    unfold roleLimitReached
    rw [hL]
    simpa using hge

theorem standard_role_quota_witness :
    (countRole (runOps emptyStandardEvent opsEx).participants .tank ≤ 2 ∧
     countRole (runOps emptyStandardEvent opsEx).participants .healer ≤ 2 ∧
     countRole (runOps emptyStandardEvent opsEx).participants .dps ≤ 4) ∧
    (∀ (e2 : Event) (u : String) (r : Role) (c : Option String) (L : Nat),
      roleClassOk r c = true →
      (¬ ∃ p ∈ e2.participants, p.id = u) →
      e2.participants.length < 8 →
      e2.groupType = GroupType.standard →
      ROLE_LIMITS r = some L →
      L ≤ countRole e2.participants r →
      joinEvent e2 u r c = .error .RoleFull) ∧
    (∀ (e2 : Event) (u : String) (r : Role) (c : Option String) (L : Nat)
        (p : Participant),
      roleClassOk r c = true →
      e2.participants.find? (fun q => decide (q.id = u)) = some p →
      e2.groupType = GroupType.standard →
      ROLE_LIMITS r = some L →
      L ≤ countRoleExcl e2.participants u r →
      changeRole e2 u r c = .error .RoleFull) :=
  standard_role_quota emptyStandardEvent opsEx rfl rfl

/-- C5: a participant changing their own role is quota-checked against the
target role's count excluding themselves, so moving into a role whose quota
is full only because of their own slot always succeeds, and the change
mutates their record in place without altering roster order (the id
sequence of the roster is unchanged). -/
theorem changeRole_quota_excludes_self (e : Event) (u : String) (r : Role)
    (c : Option String) (p : Participant)
    (hcls : roleClassOk r c = true)
    (hfind : e.participants.find? (fun q => decide (q.id = u)) = some p)
    (hrole : p.role = r)
    (hquota : ∀ L, ROLE_LIMITS r = some L →
      countRole e.participants r ≤ L) :
    ∃ e2, changeRole e u r c = .ok e2 ∧
      e2.participants = updateFirst e.participants u r c ∧
      e2.participants.map Participant.id =
        e.participants.map Participant.id := by
  have hmem : p ∈ e.participants := List.mem_of_find?_eq_some hfind
  have hpidu : p.id = u := by
    have h2 := List.find?_some hfind
    simpa using h2
  have hexcl : ∀ L, ROLE_LIMITS r = some L →
      countRoleExcl e.participants u r < L := by
    intro L hL
    have hsplit := countRole_eq_excl_add e.participants u r
    have hone : 0 < e.participants.countP
        (fun q => decide (q.role = r ∧ q.id = u)) := by
      rw [List.countP_pos_iff]
      exact ⟨p, hmem, by simp [hrole, hpidu]⟩
    have hle := hquota L hL
    omega
  have hnotfull : ¬ (e.groupType = .standard ∧
      roleLimitReached r (countRoleExcl e.participants u r) = true) := by
    rintro ⟨_, hreach⟩
    cases hL : ROLE_LIMITS r with
    | none =>
      unfold roleLimitReached at hreach
      rw [hL] at hreach
      simp at hreach
    | some L =>
      unfold roleLimitReached at hreach
      rw [hL] at hreach
      simp at hreach
      exact absurd hreach (Nat.not_le.mpr (hexcl L hL))
  refine ⟨{ e with participants := updateFirst e.participants u r c },
    ?_, rfl, updateFirst_map_id _ _ _ _⟩
  unfold changeRole
  rw [if_neg (fun hc => hc hcls), hfind]
  exact if_neg hnotfull

theorem changeRole_quota_excludes_self_witness :
    ∃ e2, changeRole standardTwoTanks "t1" .tank (some "Gunbreaker") =
        .ok e2 ∧
      e2.participants =
        updateFirst standardTwoTanks.participants "t1" .tank
          (some "Gunbreaker") ∧
      e2.participants.map Participant.id =
        standardTwoTanks.participants.map Participant.id :=
  changeRole_quota_excludes_self standardTwoTanks "t1" .tank
    (some "Gunbreaker")
    { id := "t1", role := .tank, cls := some "Paladin" }
    (by decide) (by decide) rfl
    (by
      intro L hL
      simp only [ROLE_LIMITS, Option.some.injEq] at hL
      subst hL
      decide)

/-- C7: a participant who withdraws and then joins again (with capacity and
quota allowing) is appended at the end of the roster, not restored to their
original position. -/
theorem withdraw_then_rejoin_appends (e : Event) (u : String) (r : Role)
    (c : Option String)
    (hcls : roleClassOk r c = true)
    (hmem : ∃ p ∈ e.participants, p.id = u)
    (hcap : (e.participants.filter (fun p => decide (¬ p.id = u))).length < 8)
    (hquota : ¬ (e.groupType = GroupType.standard ∧
      roleLimitReached r (countRole (e.participants.filter
        (fun p => decide (¬ p.id = u))) r) = true)) :
    ∃ e1 e2, withdraw e u = .ok e1 ∧ joinEvent e1 u r c = .ok e2 ∧
      e2.participants = e1.participants ++
        [{ id := u, role := r, cls := storedClass r c }] := by
  have hlt : (e.participants.filter (fun p => decide (¬ p.id = u))).length < e.participants.length := by
    rw [List.length_filter_lt_length_iff_exists]
    obtain ⟨p, hp, hpu⟩ := hmem
    exact ⟨p, hp, by simp [hpu]⟩
  have hw : withdraw e u = .ok { e with participants := e.participants.filter (fun p => decide (¬ p.id = u)) } := by
    unfold withdraw
    rw [if_neg (by omega)]
  have hnm : ¬ ∃ p ∈ ({ e with participants := e.participants.filter (fun p => decide (¬ p.id = u)) } : Event).participants, p.id = u := by
    rintro ⟨p, hp, hpu⟩
    have h2 := (List.mem_filter.mp hp).2
    simp only [decide_eq_true_eq] at h2
    exact h2 hpu
  have hcap2 : ¬ 8 ≤ ({ e with participants := e.participants.filter (fun p => decide (¬ p.id = u)) } : Event).participants.length :=
    Nat.not_le.mpr hcap
  have hq2 : ¬ (({ e with participants := e.participants.filter (fun p => decide (¬ p.id = u)) } : Event).groupType = GroupType.standard ∧ roleLimitReached r (countRole ({ e with participants := e.participants.filter (fun p => decide (¬ p.id = u)) } : Event).participants r) = true) := hquota
  refine ⟨{ e with participants := e.participants.filter (fun p => decide (¬ p.id = u)) }, { e with participants := (e.participants.filter (fun p => decide (¬ p.id = u))) ++ [{ id := u, role := r, cls := storedClass r c }] }, hw, ?_, rfl⟩
  unfold joinEvent
  rw [if_neg (fun hc => hc hcls), if_neg hnm, if_neg hcap2]
  exact if_neg hq2

theorem withdraw_then_rejoin_appends_witness :
    ∃ e1 e2, withdraw standardTwoTanks "t1" = .ok e1 ∧
      joinEvent e1 "t1" .dps (some "Bard") = .ok e2 ∧
      e2.participants = e1.participants ++
        [{ id := "t1", role := .dps, cls := storedClass .dps (some "Bard") }] :=
  withdraw_then_rejoin_appends standardTwoTanks "t1" .dps (some "Bard")
    (by decide) (by decide) (by decide) (by decide)
